import Mathlib

/-!
Verification of the lowest-BIN aggregation and decay engine
(`sold_auction.py`): the fold of auction observations into the persistent
record set, the temporal maintenance passes, the clean pass, and the
snapshot merge.

Prices and timestamps are modelled as rationals (Python numbers here are
integers and dyadic rationals: division only ever divides by a power of
two, so no float rounding is observable).  Python dictionaries are
modelled as association lists `List (String × α)`; dictionary assignment
replaces the binding in place when the key is present and appends
otherwise, which is exactly Python's insertion-order semantics.  Keys the
code treats as interchangeable with the empty mapping (`attributes`,
`attribute_combos`: every reader uses `get(..., {})`/`or {}` and every
writer deletes the key when the mapping is empty) are modelled as plain
lists with `[]` standing for "key absent".
-/

namespace SoldAuction

/-- First-match lookup in an association list (Python `d.get(k)`). -/
def lookupKey {α : Type} : List (String × α) → String → Option α
  | [], _ => none
  | p :: rest, k => if p.1 = k then some p.2 else lookupKey rest k

/-- Dictionary assignment `d[k] = v`: replace the first binding of `k` in
place, or append a new binding when `k` is absent. -/
def setKey {α : Type} : List (String × α) → String → α → List (String × α)
  | [], k, v => [(k, v)]
  | p :: rest, k, v => if p.1 = k then (k, v) :: rest else p :: setKey rest k v

/-- `' '.join` of a list of strings. -/
def joinSpace : List String → String
  | [] => ""
  | [s] => s
  | s :: rest => s ++ " " ++ joinSpace rest

/-- Lexicographic code-point comparison of char lists (Python's string
ordering). -/
def charListLe : List Char → List Char → Bool
  | [], _ => true
  | _ :: _, [] => false
  | a :: as, b :: bs =>
    if a.toNat < b.toNat then true
    else if b.toNat < a.toNat then false
    else charListLe as bs

/-- String order used by Python's `sorted` (code-point lexicographic). -/
def strLe (s t : String) : Bool := charListLe s.data t.data

/-- Stable insertion of one pair into a key-sorted list of pairs. -/
def insertSorted (p : String × Int) : List (String × Int) → List (String × Int)
  | [] => [p]
  | q :: l => if strLe p.1 q.1 then p :: q :: l else q :: insertSorted p l

/-- `sorted(attributes.keys())` together with the values: the attribute
pairs in ascending key order (Python dict keys are unique, so iterating
the sorted pairs is iterating the sorted keys with their values). -/
def sortPairs (l : List (String × Int)) : List (String × Int) :=
  l.foldr insertSorted []

/-- Modelled from the spec: the helper `is_within_percentage` is imported
from `auction_api.util.functions`, which is not among the sources.  The
spec states the tolerance test as `|candidate - existing| / existing <=
0.05` with the call `is_within_percentage(existing, candidate, 5)`, so the
first argument is the reference value and the third is the percentage. -/
def is_within_percentage (a b p : ℚ) : Bool :=
  decide (|b - a| / a ≤ p / 100)

/-- A per-modifier record `{lbin, timestamp}` (`timestamp` optional:
readers use `.get('timestamp', ...)`). -/
structure ModEntry where
  lbin : ℚ
  timestamp : Option ℚ
deriving DecidableEq

/-- An item record as stored in the persistent record set:
`{lbin, timestamp?, attributes?, attribute_combos?}`.  The two mapping
fields use `[]` for "key absent" (see the header comment). -/
structure ItemRecord where
  lbin : ℚ
  timestamp : Option ℚ
  attributes : List (String × ModEntry)
  attribute_combos : List (String × ℚ)
deriving DecidableEq

/-- The persistent record set: identity → ItemRecord. -/
abbrev Items := List (String × ItemRecord)

/-- One step of the per-attribute pricing loop, lines 62-67 of
`sold_auction.py`: compute the implied cost `item_bin / 2^(tier-1)`,
then either take the strictly better price (refreshing the timestamp),
refresh only the timestamp when within 5%, or leave the entry alone. -/
def attrTierStep (now item_bin : ℚ) (ia : List (String × ModEntry))
    (name : String) (tier : Int) : List (String × ModEntry) :=
  let attribute_cost := item_bin / 2 ^ (tier - 1)
  let current_cost := match lookupKey ia name with
    | some e => e.lbin
    | none => attribute_cost
  if attribute_cost ≤ current_cost then
    setKey ia name { lbin := attribute_cost, timestamp := some now }
  else if is_within_percentage current_cost attribute_cost 5 then
    match lookupKey ia name with
    | some e => setKey ia name { e with timestamp := some now }
    | none => ia   -- unreachable: an absent key makes the first branch fire
  else ia

/-- The mutable state of the attribute loop, lines 52-70:
`item_attributes`, `check_combo`, `is_kuudra_piece`. -/
structure AttrLoopState where
  item_attributes : List (String × ModEntry)
  check_combo : Bool
  is_kuudra_piece : Bool
deriving DecidableEq

/-- One iteration of the attribute loop (lines 58-70).  The helper
`update_kuudra_piece` is imported from `auction_api.util.functions`, which
is not among the sources; it is modelled from the spec as an abstract
boolean `kuudra` of the arguments the call passes (item id, attribute
name, attribute cost); its possible updates to records of other
identities are outside the claims considered here. -/
def attrStep (kuudra : String → String → ℚ → Bool) (item_id : String)
    (now item_bin : ℚ) (st : AttrLoopState) (p : String × Int) : AttrLoopState :=
  let attribute_cost := item_bin / 2 ^ (p.2 - 1)
  { item_attributes := attrTierStep now item_bin st.item_attributes p.1 p.2,
    check_combo := if p.2 > 5 then false else st.check_combo,
    is_kuudra_piece := kuudra item_id p.1 attribute_cost }

/-- The whole attribute loop over the sorted attribute pairs, started
from `check_combo = True`, `is_kuudra_piece = False` (lines 54-70). -/
def attrLoop (kuudra : String → String → ℚ → Bool) (item_id : String)
    (now item_bin : ℚ) (ia0 : List (String × ModEntry))
    (pairs : List (String × Int)) : AttrLoopState :=
  pairs.foldl (attrStep kuudra item_id now item_bin) ⟨ia0, true, false⟩

/-- One auction observation after identity resolution: the canonical
item id (plain id, or the pet/rune composite of lines 30-36), the price
`auction['price']`, the raw auction timestamp in milliseconds, and the
`attributes` bag (`none` when the key is absent). -/
structure Observation where
  item_id : String
  price : ℚ
  timestamp : ℚ
  attributes : Option (List (String × Int))
deriving DecidableEq

/-- Line 49: the attribute mapping the fold starts from — the current
record's, or empty (`{} if current is None else current.get('attributes')
or {}`; `[]` is "absent or empty"). -/
def baseAttrsOf (items : Items) (id : String) : List (String × ModEntry) :=
  match lookupKey items id with
  | none => []
  | some c => c.attributes

/-- Line 74: the combo mapping the fold starts from
(`current.get('attribute_combos', {}) if current and 'attribute_combos'
in current else {}`; key-present-iff-nonempty makes this the current
record's combo list, or empty). -/
def baseCombosOf (items : Items) (id : String) : List (String × ℚ) :=
  match lookupKey items id with
  | none => []
  | some c => c.attribute_combos

/-- The record built for one observation (the `item` dict of lines
39-83), before it is stored back into the record set. -/
def foldedRecord (kuudra : String → String → ℚ → Bool) (now : ℚ)
    (items : Items) (a : Observation) : ItemRecord :=
  let current := lookupKey items a.item_id
  let item_bin := a.price
  -- lines 41-45: `timestamp` refreshes when there is no current record,
  -- the new bin is within 5% of the current lbin, or it undercuts it
  let ts : Option ℚ :=
    match current with
    | none => some (a.timestamp / 1000)
    | some c =>
      if is_within_percentage item_bin c.lbin 5 || decide (item_bin < c.lbin) then
        some (a.timestamp / 1000)
      else c.timestamp
  let lbin := match current with
    | none => item_bin
    | some c => min item_bin c.lbin
  let ia0 := baseAttrsOf items a.item_id
  match a.attributes with
  | none =>
    -- lines 82-83 delete an empty `attributes` mapping; `[]` is "absent"
    { lbin := lbin, timestamp := ts, attributes := ia0, attribute_combos := [] }
  | some attrs =>
    let pairs := sortPairs attrs
    let st := attrLoop kuudra a.item_id now item_bin ia0 pairs
    -- lines 72-79: the combo block runs only for Kuudra pieces
    let combos :=
      if st.is_kuudra_piece then
        let item_combos := baseCombosOf items a.item_id
        if st.check_combo && decide (1 < pairs.length) then
          let attribute_combo := joinSpace (pairs.map Prod.fst)
          setKey item_combos attribute_combo
            (min item_bin ((lookupKey item_combos attribute_combo).getD item_bin))
        else item_combos
      else []
    { lbin := lbin, timestamp := ts, attributes := st.item_attributes,
      attribute_combos := combos }

/-- Folding one observation into the record set: build the item record
and store it (`items[item_id] = item`, line 86). -/
def foldAuction (kuudra : String → String → ℚ → Bool) (now : ℚ)
    (items : Items) (a : Observation) : Items :=
  setKey items a.item_id (foldedRecord kuudra now items a)

/-- Decoded item descriptor: the resolved identity and the attribute bag.
Decoding (`decode_nbt`, the nested-field access of line 26, and the
pet/rune sub-parses) is delegated to a codec absent from the sources; an
auction whose descriptor cannot be decoded is modelled by `none` below. -/
structure Decoded where
  item_id : String
  attributes : Option (List (String × Int))
deriving DecidableEq

/-- One entry of the fetched auction batch: the `bin` flag, the price,
the auction timestamp, and the decodable-or-not item descriptor. -/
structure RawAuction where
  bin : Bool
  price : ℚ
  timestamp : ℚ
  descriptor : Option Decoded
deriving DecidableEq

/-- The ingestion loop of `get_sold_auction` (lines 20-86) over one
fetched batch.  Non-BIN auctions are skipped.  There is no handler around
the descriptor accesses, so a failing decode raises out of the loop:
modelled by `Except.error ()`, which short-circuits the remaining batch. -/
def get_sold_auction (kuudra : String → String → ℚ → Bool) (now : ℚ)
    (items : Items) : List RawAuction → Except Unit Items
  | [] => .ok items
  | a :: rest =>
    if a.bin = false then get_sold_auction kuudra now items rest
    else
      match a.descriptor with
      | none => .error ()
      | some d =>
        get_sold_auction kuudra now
          (foldAuction kuudra now items ⟨d.item_id, a.price, a.timestamp, d.attributes⟩) rest

/-- The per-modifier part of the decay pass (lines 128-132): expire
entries stale beyond a week, inflate the survivors by 1000. -/
def parseAttrs (now : ℚ) (attrs : List (String × ModEntry)) :
    List (String × ModEntry) :=
  attrs.filterMap fun p =>
    if now - (p.2.timestamp.getD now) > 604800 then none
    else some (p.1, { p.2 with lbin := p.2.lbin + 1000 })

/-- The decay/inflate pass for one record (lines 113-132).  `lbin` is
present on every record any writer produces, so `item.get('lbin', 0)` is
the field itself.  The `continue` at the ceiling check skips the
attribute loop as well; a deleted record's attribute mutations are
unobservable. -/
def parseItem (now : ℚ) (item : ItemRecord) : Option ItemRecord :=
  let current_lbin := item.lbin
  if current_lbin > 100000000 then some item
  else if now - (item.timestamp.getD now) > 604800 then none
  else
    let item := if current_lbin ≠ 0 then { item with lbin := item.lbin + 1000 } else item
    some { item with attributes := parseAttrs now item.attributes }

/-- The decay/inflate pass over the whole record set (lines 108-132). -/
def parse_items (now : ℚ) (items : Items) : Items :=
  items.filterMap fun p => (parseItem now p.2).map fun r => (p.1, r)

/-- A record after the clean pass: modifiers flattened to bare prices. -/
structure CleanedRecord where
  lbin : ℚ
  timestamp : Option ℚ
  attributes : List (String × ℚ)
  attribute_combos : List (String × ℚ)
deriving DecidableEq

/-- The clean pass for one record (lines 136-147).  The guard on line 138
is `if 'timesstamp' in item: del item['timestamp']`: no code path ever
writes a key spelled `timesstamp`, so the guard is always false and the
`timestamp` key is never deleted.  Each modifier is flattened to its bare
`lbin` (the delete-then-reinsert per key reproduces the original order). -/
def cleanItem (item : ItemRecord) : CleanedRecord :=
  { lbin := item.lbin,
    timestamp := item.timestamp,
    attributes := item.attributes.map fun p => (p.1, p.2.lbin),
    attribute_combos := item.attribute_combos }

/-- The clean pass over the whole record set (lines 135-147). -/
def clean_items (items : Items) : List (String × CleanedRecord) :=
  items.map fun p => (p.1, cleanItem p.2)

/-- The record built when the snapshot merge imports a supplemental
record (lines 165-177): same lbin and combos, timestamp stamped to now,
each bare modifier price re-wrapped into `{lbin, timestamp: now}`. -/
def mergeRecord (now : ℚ) (d : CleanedRecord) : ItemRecord :=
  { lbin := d.lbin,
    timestamp := some now,
    attributes := d.attributes.map fun p => (p.1, { lbin := p.2, timestamp := some now }),
    attribute_combos := d.attribute_combos }

/-- The snapshot merge (lines 150-177): identities already present in the
authoritative set are skipped; the rest are imported via `mergeRecord`.
The supplemental set read from `data/active/auction` carries the cleaned
(bare-modifier-price) shape. -/
def merge_current (now : ℚ) (items : Items)
    (data : List (String × CleanedRecord)) : Items :=
  data.foldl
    (fun acc p =>
      if (lookupKey acc p.1).isSome then acc
      else setKey acc p.1 (mergeRecord now p.2))
    items

/-- What one main cycle produces: the record set handed to `save_items`
and the in-memory set left after `clean_items`. -/
structure CycleResult where
  saved : Items
  memory : List (String × CleanedRecord)
deriving DecidableEq

/-- The `__main__` sequence of lines 185-190: load, decay, fold the
batch, persist, then clean the in-memory copy.  An ingestion error
propagates, in which case nothing is saved or cleaned. -/
def mainCycle (kuudra : String → String → ℚ → Bool) (now : ℚ)
    (stored : Items) (batch : List RawAuction) : Except Unit CycleResult :=
  let lbin := parse_items now stored
  match get_sold_auction kuudra now lbin batch with
  | .error e => .error e
  | .ok saved => .ok { saved := saved, memory := clean_items saved }

/-! ### Association-list lemmas -/

theorem lookupKey_setKey_self {α : Type} (l : List (String × α)) (k : String) (v : α) :
    lookupKey (setKey l k v) k = some v := by
  induction l with
  | nil => simp [setKey, lookupKey]
  | cons p rest ih =>
    by_cases h : p.1 = k
    · simp [setKey, h, lookupKey]
    · simp [setKey, h, lookupKey, ih]

theorem lookupKey_setKey_ne {α : Type} (l : List (String × α)) (k k' : String) (v : α)
    (h : k' ≠ k) : lookupKey (setKey l k v) k' = lookupKey l k' := by
  induction l with
  | nil => simp [setKey, lookupKey, Ne.symm h]
  | cons p rest ih =>
    by_cases hp : p.1 = k
    · simp [setKey, hp, lookupKey, Ne.symm h]
    · simp [setKey, hp, lookupKey, ih]

theorem setKey_lookup_self {α : Type} (l : List (String × α)) (k : String) (v : α)
    (h : lookupKey l k = some v) : setKey l k v = l := by
  induction l with
  | nil => simp [lookupKey] at h
  | cons p rest ih =>
    by_cases hp : p.1 = k
    · simp [lookupKey, hp] at h
      rw [setKey, if_pos hp, ← hp, ← h]
    · simp [lookupKey, hp] at h
      simp [setKey, hp, ih h]

/-! ### C2: a malformed auction aborts the whole batch -/

/-- **C2, counterexample.**  The claim says a single undecodable auction is
skipped and the rest of the batch is processed.  On a batch holding one
undecodable BIN auction followed by one well-formed BIN auction, the
ingestion loop instead returns the structural error: the well-formed
auction is never folded and the cycle is aborted. -/
theorem c2_counterexample :
    get_sold_auction (fun _ _ _ => false) 0 []
      [⟨true, 5, 0, none⟩, ⟨true, 7, 0, some ⟨"G", none⟩⟩] = Except.error () := rfl

/-- **C2, amended.**  A BIN auction whose descriptor cannot be decoded or
lacks the expected nested fields makes the whole ingestion call fail:
nothing after it in the batch is processed and no partially updated
record set is returned. -/
theorem c2_batch_aborts (kuudra : String → String → ℚ → Bool) (now : ℚ)
    (items : Items) (a : RawAuction) (rest : List RawAuction)
    (hbin : a.bin = true) (hdesc : a.descriptor = none) :
    get_sold_auction kuudra now items (a :: rest) = Except.error () := by
  simp [get_sold_auction, hbin, hdesc]

/-- **C2, witness** for the amended statement. -/
theorem c2_witness :
    get_sold_auction (fun _ _ _ => false) 0 [] [⟨true, 5, 0, none⟩] = Except.error () :=
  c2_batch_aborts (fun _ _ _ => false) 0 [] ⟨true, 5, 0, none⟩ [] rfl rfl

/-! ### C3: the clean pass never drops the top-level timestamp -/

/-- **C3.**  Evaluating the clean pass at a record carrying a top-level
timestamp: the guard on line 138 tests the misspelled key `'timesstamp'`,
which no writer ever produces, so the `timestamp` key survives the clean
pass — contradicting the claim that it is absent afterwards.  The
modifier-flattening half of the claim does hold (second conjunct). -/
theorem c3_clean_keeps_timestamp :
    (cleanItem ⟨500, some 123, [("A", ⟨10, some 7⟩)], []⟩).timestamp = some 123 ∧
      (cleanItem ⟨500, some 123, [("A", ⟨10, some 7⟩)], []⟩).attributes = [("A", 10)] :=
  ⟨rfl, rfl⟩

/-! ### C6: the high-value ceiling exempts a record from the decay pass -/

/-- **C6.**  A record whose `lbin` exceeds 100,000,000 passes through the
decay/inflate pass entirely unchanged: it is not evicted however stale
its timestamp, its `lbin` is not inflated, and its modifiers are
untouched (the `continue` skips the whole loop body). -/
theorem c6_ceiling_exempt (now : ℚ) (items : Items) (k : String) (r : ItemRecord)
    (hr : lookupKey items k = some r) (h : r.lbin > 100000000) :
    lookupKey (parse_items now items) k = some r := by
  induction items with
  | nil => simp [lookupKey] at hr
  | cons p rest ih =>
    by_cases hp : p.1 = k
    · simp [lookupKey, hp] at hr
      subst hr
      have hpi : parseItem now p.2 = some p.2 := by
        rw [parseItem]
        simp [h]
      simp [parse_items, List.filterMap_cons, hpi, lookupKey, hp]
    · simp [lookupKey, hp] at hr
      have := ih hr
      simp [parse_items, List.filterMap_cons] at this ⊢
      cases hpi : parseItem now p.2 with
      | none => simpa [hpi] using this
      | some r' => simpa [hpi, lookupKey, hp] using this

/-- **C6, witness**: the spec's example — `lbin = 200,000,000`, last
updated 30 days in the past (now = 2,592,000, timestamp = 0) — survives
the decay pass unchanged. -/
theorem c6_witness :
    lookupKey (parse_items 2592000 [("X", ⟨200000000, some 0, [("A", ⟨10, some 0⟩)], []⟩)]) "X"
      = some ⟨200000000, some 0, [("A", ⟨10, some 0⟩)], []⟩ :=
  c6_ceiling_exempt 2592000 _ "X" _ rfl (by norm_num)

/-! ### C10: the record set is persisted before the clean pass -/

/-- **C10.**  In the main cycle the set handed to `save_items` is exactly
the fold output over the decayed previous state — a set of structured
records (`ItemRecord`, with top-level timestamps and `{lbin, timestamp}`
modifier entries) — and the flattened form produced by `clean_items`
exists only in the in-memory `memory` component, computed from the saved
set after it is persisted; it is never what gets saved. -/
theorem c10_save_before_clean (kuudra : String → String → ℚ → Bool) (now : ℚ)
    (stored : Items) (batch : List RawAuction) :
    mainCycle kuudra now stored batch =
      (get_sold_auction kuudra now (parse_items now stored) batch).map
        (fun saved => { saved := saved, memory := clean_items saved }) := by
  unfold mainCycle
  cases h : get_sold_auction kuudra now (parse_items now stored) batch with
  | error e => simp [h, Except.map]
  | ok s => simp [h, Except.map]

/-! ### C4: the per-modifier update rule -/

/-- **C4.**  One step of the per-modifier pricing loop, for a modifier
that already has a stored entry `e` and candidate `item_bin / 2^(tier-1)`:
if the candidate undercuts (or equals) the stored price, the entry
becomes the candidate with a fresh timestamp; otherwise, if the candidate
is within the 5% relative tolerance of the stored price, the price is
kept and only the timestamp refreshes; otherwise nothing changes. -/
theorem c4_modifier_update (now item_bin : ℚ) (ia : List (String × ModEntry))
    (name : String) (tier : Int) (e : ModEntry)
    (he : lookupKey ia name = some e) :
    (item_bin / 2 ^ (tier - 1) ≤ e.lbin →
        lookupKey (attrTierStep now item_bin ia name tier) name =
          some ⟨item_bin / 2 ^ (tier - 1), some now⟩)
    ∧ (¬ item_bin / 2 ^ (tier - 1) ≤ e.lbin →
        |item_bin / 2 ^ (tier - 1) - e.lbin| / e.lbin ≤ 5 / 100 →
        lookupKey (attrTierStep now item_bin ia name tier) name =
          some ⟨e.lbin, some now⟩)
    ∧ (¬ item_bin / 2 ^ (tier - 1) ≤ e.lbin →
        ¬ |item_bin / 2 ^ (tier - 1) - e.lbin| / e.lbin ≤ 5 / 100 →
        attrTierStep now item_bin ia name tier = ia) := by
  refine ⟨fun h1 => ?_, fun h1 h2 => ?_, fun h1 h2 => ?_⟩
  · simp [attrTierStep, he, h1, lookupKey_setKey_self]
  · simp [attrTierStep, he, h1, is_within_percentage, h2, lookupKey_setKey_self]
  · simp [attrTierStep, he, h1, is_within_percentage, h2]

/-- **C4, witness**: the spec's example — stored price 100, candidate 104
(within 5%): price stays 100, timestamp refreshes. -/
theorem c4_witness :
    lookupKey (attrTierStep 9 104 [("A", ⟨100, some 0⟩)] "A" 1) "A" = some ⟨100, some 9⟩ :=
  (c4_modifier_update 9 104 [("A", ⟨100, some 0⟩)] "A" 1 ⟨100, some 0⟩ rfl).2.1
    (by norm_num) (by norm_num)

/-! ### C7: per-modifier retention and inflation in the decay pass -/

theorem parseAttrs_cons (now : ℚ) (p : String × ModEntry)
    (rest : List (String × ModEntry)) :
    parseAttrs now (p :: rest) =
      if now - (p.2.timestamp.getD now) > 604800 then parseAttrs now rest
      else (p.1, { p.2 with lbin := p.2.lbin + 1000 }) :: parseAttrs now rest := by
  by_cases hs : now - (p.2.timestamp.getD now) > 604800 <;>
    simp [parseAttrs, List.filterMap_cons, hs]

theorem lookupKey_parseAttrs_none (now : ℚ) (attrs : List (String × ModEntry))
    (k : String) (h : ∀ p ∈ attrs, p.1 ≠ k) :
    lookupKey (parseAttrs now attrs) k = none := by
  induction attrs with
  | nil => rfl
  | cons p rest ih =>
    have hrest : ∀ q ∈ rest, q.1 ≠ k := fun q hq => h q (List.mem_cons_of_mem _ hq)
    rw [parseAttrs_cons]
    by_cases hs : now - (p.2.timestamp.getD now) > 604800
    · rw [if_pos hs]
      exact ih hrest
    · rw [if_neg hs]
      simp [lookupKey, h p (List.mem_cons_self _ _), ih hrest]

theorem lookupKey_parseAttrs (now : ℚ) (attrs : List (String × ModEntry))
    (k : String) (e : ModEntry) (hnd : (attrs.map Prod.fst).Nodup)
    (he : lookupKey attrs k = some e) :
    lookupKey (parseAttrs now attrs) k =
      if now - e.timestamp.getD now > 604800 then none
      else some ⟨e.lbin + 1000, e.timestamp⟩ := by
  induction attrs with
  | nil => simp [lookupKey] at he
  | cons p rest ih =>
    rw [List.map_cons, List.nodup_cons] at hnd
    obtain ⟨hnotin, hndr⟩ := hnd
    rw [parseAttrs_cons]
    by_cases hp : p.1 = k
    · have he' : p.2 = e := by simpa [lookupKey, hp] using he
      subst he'
      by_cases hs : now - (p.2.timestamp.getD now) > 604800
      · rw [if_pos hs, if_pos hs]
        apply lookupKey_parseAttrs_none
        intro q hq hqk
        apply hnotin
        rw [hp, ← hqk]
        exact List.mem_map_of_mem Prod.fst hq
      · rw [if_neg hs, if_neg hs]
        simp [lookupKey, hp]
    · have he' : lookupKey rest k = some e := by simpa [lookupKey, hp] using he
      by_cases hs : now - (p.2.timestamp.getD now) > 604800
      · rw [if_pos hs]
        exact ih hndr he'
      · rw [if_neg hs]
        simp only [lookupKey, hp, if_false]
        exact ih hndr he'

/-- **C7.**  For a record neither skipped by the ceiling nor deleted for
staleness, the decay pass removes exactly the modifier entries whose
timestamp lies more than 604,800 seconds before now, and inflates every
surviving entry's price by exactly 1,000 (keeping its timestamp). -/
theorem c7_modifier_decay (now : ℚ) (item : ItemRecord) (name : String) (e : ModEntry)
    (hceil : ¬ item.lbin > 100000000)
    (hfresh : ¬ now - item.timestamp.getD now > 604800)
    (hnd : (item.attributes.map Prod.fst).Nodup)
    (he : lookupKey item.attributes name = some e) :
    ∃ r, parseItem now item = some r ∧
      (now - e.timestamp.getD now > 604800 → lookupKey r.attributes name = none) ∧
      (¬ now - e.timestamp.getD now > 604800 →
        lookupKey r.attributes name = some ⟨e.lbin + 1000, e.timestamp⟩) := by
  have hr : parseItem now item = some
      { (if item.lbin ≠ 0 then { item with lbin := item.lbin + 1000 } else item) with
        attributes := parseAttrs now item.attributes } := by
    rw [parseItem]
    simp [hceil, hfresh]
    split <;> rfl
  refine ⟨_, hr, fun hs => ?_, fun hs => ?_⟩
  · have hgoal := lookupKey_parseAttrs now item.attributes name e hnd he
    rw [if_pos hs] at hgoal
    simpa using hgoal
  · have hgoal := lookupKey_parseAttrs now item.attributes name e hnd he
    rw [if_neg hs] at hgoal
    simpa using hgoal

/-- **C7, witness**: at now = 700,000, a modifier last updated 8 days ago
(timestamp 8,800) is removed and one last updated 6 days ago (timestamp
181,600) survives with its price inflated from 20 to 1,020. -/
theorem c7_witness :
    (∃ r, parseItem 700000
        ⟨500, some 700000, [("A", ⟨10, some 8800⟩), ("B", ⟨20, some 181600⟩)], []⟩ = some r ∧
      lookupKey r.attributes "A" = none) ∧
    (∃ r, parseItem 700000
        ⟨500, some 700000, [("A", ⟨10, some 8800⟩), ("B", ⟨20, some 181600⟩)], []⟩ = some r ∧
      lookupKey r.attributes "B" = some ⟨1020, some 181600⟩) := by
  constructor
  · obtain ⟨r, h1, h2, h3⟩ := c7_modifier_decay 700000
      ⟨500, some 700000, [("A", ⟨10, some 8800⟩), ("B", ⟨20, some 181600⟩)], []⟩
      "A" ⟨10, some 8800⟩ (by norm_num) (by norm_num) (by decide) rfl
    exact ⟨r, h1, h2 (by norm_num)⟩
  · obtain ⟨r, h1, h2, h3⟩ := c7_modifier_decay 700000
      ⟨500, some 700000, [("A", ⟨10, some 8800⟩), ("B", ⟨20, some 181600⟩)], []⟩
      "B" ⟨20, some 181600⟩ (by norm_num) (by norm_num) (by decide) rfl
    have hb := h3 (by norm_num)
    norm_num at hb
    exact ⟨r, h1, hb⟩

/-! ### C8: the snapshot merge only fills gaps -/

theorem lookupKey_merge_current_of_mem (now : ℚ) (items : Items)
    (data : List (String × CleanedRecord)) (k : String) (r : ItemRecord)
    (h : lookupKey items k = some r) :
    lookupKey (merge_current now items data) k = some r := by
  induction data generalizing items with
  | nil => exact h
  | cons p rest ih =>
    simp only [merge_current, List.foldl_cons]
    by_cases hps : (lookupKey items p.1).isSome = true
    · rw [if_pos hps]
      exact ih items h
    · rw [if_neg hps]
      apply ih
      have hne : k ≠ p.1 := by
        intro hk
        rw [hk] at h
        simp [h] at hps
      rw [lookupKey_setKey_ne _ _ _ _ hne]
      exact h

theorem lookupKey_merge_current_of_gap (now : ℚ) (items : Items)
    (data : List (String × CleanedRecord)) (k : String) (d : CleanedRecord)
    (hnone : lookupKey items k = none) (hd : lookupKey data k = some d) :
    lookupKey (merge_current now items data) k = some (mergeRecord now d) := by
  induction data generalizing items with
  | nil => simp [lookupKey] at hd
  | cons p rest ih =>
    simp only [merge_current, List.foldl_cons]
    by_cases hp : p.1 = k
    · have hd' : p.2 = d := by simpa [lookupKey, hp] using hd
      subst hd'
      have hps : ¬ (lookupKey items p.1).isSome = true := by
        rw [hp, hnone]
        simp
      rw [if_neg hps]
      apply lookupKey_merge_current_of_mem
      rw [hp, lookupKey_setKey_self]
    · have hd' : lookupKey rest k = some d := by simpa [lookupKey, hp] using hd
      by_cases hps : (lookupKey items p.1).isSome = true
      · rw [if_pos hps]
        exact ih items hnone hd'
      · rw [if_neg hps]
        apply ih
        · rw [lookupKey_setKey_ne _ _ _ _ (Ne.symm hp)]
          exact hnone
        · exact hd'

/-- **C8.**  The snapshot merge leaves every identity already present in
the authoritative set untouched (same record, same lbin), and copies an
identity present only in the supplemental set across with its timestamp
stamped to now and each bare modifier price re-wrapped into an
`{lbin, timestamp: now}` entry (which is what `mergeRecord` builds). -/
theorem c8_merge_no_override (now : ℚ) (items : Items)
    (data : List (String × CleanedRecord)) (k : String) :
    (∀ r, lookupKey items k = some r →
        lookupKey (merge_current now items data) k = some r)
    ∧ (lookupKey items k = none → ∀ d, lookupKey data k = some d →
        lookupKey (merge_current now items data) k = some (mergeRecord now d)) :=
  ⟨fun r h => lookupKey_merge_current_of_mem now items data k r h,
   fun hn d hd => lookupKey_merge_current_of_gap now items data k d hn hd⟩

/-- **C8, witness**: the spec's example — supplemental `X` at 500 does
not override authoritative `X` at 300, while a gap identity `Y` is copied
in with timestamp now and a re-wrapped modifier entry. -/
theorem c8_witness :
    lookupKey (merge_current 7 [("X", ⟨300, some 1, [], []⟩)]
        [("X", ⟨500, none, [], []⟩), ("Y", ⟨400, none, [("m", 50)], []⟩)]) "X"
      = some ⟨300, some 1, [], []⟩
    ∧ lookupKey (merge_current 7 [("X", ⟨300, some 1, [], []⟩)]
        [("X", ⟨500, none, [], []⟩), ("Y", ⟨400, none, [("m", 50)], []⟩)]) "Y"
      = some ⟨400, some 7, [("m", ⟨50, some 7⟩)], []⟩ :=
  ⟨(c8_merge_no_override 7 [("X", ⟨300, some 1, [], []⟩)]
      [("X", ⟨500, none, [], []⟩), ("Y", ⟨400, none, [("m", 50)], []⟩)] "X").1
      ⟨300, some 1, [], []⟩ rfl,
   (c8_merge_no_override 7 [("X", ⟨300, some 1, [], []⟩)]
      [("X", ⟨500, none, [], []⟩), ("Y", ⟨400, none, [("m", 50)], []⟩)] "Y").2
      rfl ⟨400, none, [("m", 50)], []⟩ rfl⟩

/-! ### Component lemmas for the fold -/

theorem baseAttrsOf_setKey_self (items : Items) (id : String) (r : ItemRecord) :
    baseAttrsOf (setKey items id r) id = r.attributes := by
  rw [baseAttrsOf, lookupKey_setKey_self]

theorem baseCombosOf_setKey_self (items : Items) (id : String) (r : ItemRecord) :
    baseCombosOf (setKey items id r) id = r.attribute_combos := by
  rw [baseCombosOf, lookupKey_setKey_self]

theorem foldedRecord_lbin (kuudra : String → String → ℚ → Bool) (now : ℚ)
    (items : Items) (a : Observation) :
    (foldedRecord kuudra now items a).lbin
      = match lookupKey items a.item_id with
        | none => a.price
        | some c => min a.price c.lbin := by
  rw [foldedRecord]
  cases a.attributes <;> rfl

theorem foldedRecord_attributes_none (kuudra : String → String → ℚ → Bool) (now : ℚ)
    (items : Items) (a : Observation) (ha : a.attributes = none) :
    (foldedRecord kuudra now items a).attributes = baseAttrsOf items a.item_id := by
  rw [foldedRecord, ha]

theorem foldedRecord_attributes_some (kuudra : String → String → ℚ → Bool) (now : ℚ)
    (items : Items) (a : Observation) (attrs : List (String × Int))
    (ha : a.attributes = some attrs) :
    (foldedRecord kuudra now items a).attributes
      = (attrLoop kuudra a.item_id now a.price (baseAttrsOf items a.item_id)
          (sortPairs attrs)).item_attributes := by
  rw [foldedRecord, ha]

theorem foldedRecord_combos_none (kuudra : String → String → ℚ → Bool) (now : ℚ)
    (items : Items) (a : Observation) (ha : a.attributes = none) :
    (foldedRecord kuudra now items a).attribute_combos = [] := by
  rw [foldedRecord, ha]

theorem foldedRecord_combos_some (kuudra : String → String → ℚ → Bool) (now : ℚ)
    (items : Items) (a : Observation) (attrs : List (String × Int))
    (ha : a.attributes = some attrs) :
    (foldedRecord kuudra now items a).attribute_combos
      = (if (attrLoop kuudra a.item_id now a.price (baseAttrsOf items a.item_id)
              (sortPairs attrs)).is_kuudra_piece then
          if (attrLoop kuudra a.item_id now a.price (baseAttrsOf items a.item_id)
                (sortPairs attrs)).check_combo
              && decide (1 < (sortPairs attrs).length) then
            setKey (baseCombosOf items a.item_id)
              (joinSpace ((sortPairs attrs).map Prod.fst))
              (min a.price ((lookupKey (baseCombosOf items a.item_id)
                (joinSpace ((sortPairs attrs).map Prod.fst))).getD a.price))
          else baseCombosOf items a.item_id
        else []) := by
  rw [foldedRecord, ha]

/-! ### The attribute-loop state components -/

theorem foldl_attrStep_check_combo (kuudra : String → String → ℚ → Bool)
    (item_id : String) (now item_bin : ℚ) (pairs : List (String × Int))
    (st : AttrLoopState) :
    (pairs.foldl (attrStep kuudra item_id now item_bin) st).check_combo
      = (st.check_combo && pairs.all fun p => decide (p.2 ≤ 5)) := by
  induction pairs generalizing st with
  | nil => simp
  | cons p rest ih =>
    rw [List.foldl_cons, ih, List.all_cons]
    by_cases h : p.2 > 5
    · have h5 : ¬ p.2 ≤ 5 := not_le.mpr h
      simp [attrStep, h, h5]
    · have h5 : p.2 ≤ 5 := not_lt.mp h
      simp [attrStep, h, h5]

theorem attrLoop_check_combo (kuudra : String → String → ℚ → Bool) (item_id : String)
    (now item_bin : ℚ) (ia0 : List (String × ModEntry)) (pairs : List (String × Int)) :
    (attrLoop kuudra item_id now item_bin ia0 pairs).check_combo
      = pairs.all fun p => decide (p.2 ≤ 5) := by
  rw [attrLoop, foldl_attrStep_check_combo]
  simp

theorem foldl_attrStep_kuudra_congr (kuudra : String → String → ℚ → Bool)
    (item_id : String) (now1 now2 item_bin : ℚ) (pairs : List (String × Int))
    (st1 st2 : AttrLoopState) (h : st1.is_kuudra_piece = st2.is_kuudra_piece) :
    (pairs.foldl (attrStep kuudra item_id now1 item_bin) st1).is_kuudra_piece
      = (pairs.foldl (attrStep kuudra item_id now2 item_bin) st2).is_kuudra_piece := by
  induction pairs generalizing st1 st2 with
  | nil => exact h
  | cons p rest ih =>
    rw [List.foldl_cons, List.foldl_cons]
    exact ih _ _ rfl

theorem attrLoop_kuudra_congr (kuudra : String → String → ℚ → Bool) (item_id : String)
    (now1 now2 item_bin : ℚ) (ia1 ia2 : List (String × ModEntry))
    (pairs : List (String × Int)) :
    (attrLoop kuudra item_id now1 item_bin ia1 pairs).is_kuudra_piece
      = (attrLoop kuudra item_id now2 item_bin ia2 pairs).is_kuudra_piece :=
  foldl_attrStep_kuudra_congr kuudra item_id now1 now2 item_bin pairs _ _ rfl

theorem foldl_attrStep_item_attributes (kuudra : String → String → ℚ → Bool)
    (item_id : String) (now item_bin : ℚ) (pairs : List (String × Int))
    (st : AttrLoopState) :
    (pairs.foldl (attrStep kuudra item_id now item_bin) st).item_attributes
      = pairs.foldl (fun ia p => attrTierStep now item_bin ia p.1 p.2)
          st.item_attributes := by
  induction pairs generalizing st with
  | nil => rfl
  | cons p rest ih =>
    rw [List.foldl_cons, List.foldl_cons, ih]
    rfl

/-! ### C1: combo recording is gated on the Kuudra check -/

/-- **C1, counterexample.**  The spec's own example — two modifiers of
tiers 2 and 3 and price 60,000,000 — folded for an item the Kuudra check
rejects: no combo entry at all is recorded (the combo map stays empty),
whereas the claim asks for combo key `"A B"` with value 60,000,000. -/
theorem c1_counterexample :
    (foldedRecord (fun _ _ _ => false) 0 []
        ⟨"HELMET", 60000000, 0, some [("A", 2), ("B", 3)]⟩).attribute_combos = [] := by
  rfl

/-- **C1, amended.**  For a folded observation with at least two
modifiers, all of tier ≤ 5, *and for which the `update_kuudra_piece`
check reported a Kuudra armor piece*, the fold records a combo entry
keyed by the sorted modifier names joined with single spaces whose value
is the minimum of the observation's price and any existing value for that
key; and whenever some modifier has tier > 5, no new combo entry is
recorded (the combo map is at most the carried-over one). -/
theorem c1_combo_kuudra_gated (kuudra : String → String → ℚ → Bool) (now : ℚ)
    (items : Items) (a : Observation) (attrs : List (String × Int))
    (ha : a.attributes = some attrs)
    (hk : (attrLoop kuudra a.item_id now a.price (baseAttrsOf items a.item_id)
        (sortPairs attrs)).is_kuudra_piece = true) :
    (1 < (sortPairs attrs).length →
      (∀ p ∈ sortPairs attrs, p.2 ≤ 5) →
      lookupKey (foldedRecord kuudra now items a).attribute_combos
          (joinSpace ((sortPairs attrs).map Prod.fst))
        = some (min a.price
            ((lookupKey (baseCombosOf items a.item_id)
              (joinSpace ((sortPairs attrs).map Prod.fst))).getD a.price)))
    ∧ ((∃ p ∈ sortPairs attrs, 5 < p.2) →
        (foldedRecord kuudra now items a).attribute_combos
          = baseCombosOf items a.item_id) := by
  rw [foldedRecord_combos_some kuudra now items a attrs ha]
  constructor
  · intro hlen hq
    have hcc : (attrLoop kuudra a.item_id now a.price (baseAttrsOf items a.item_id)
        (sortPairs attrs)).check_combo = true := by
      rw [attrLoop_check_combo]
      simp only [List.all_eq_true, decide_eq_true_eq]
      exact hq
    rw [hk, if_pos rfl, hcc]
    simp only [Bool.true_and, decide_eq_true_eq]
    rw [if_pos hlen, lookupKey_setKey_self]
  · intro hbad
    have hcc : (attrLoop kuudra a.item_id now a.price (baseAttrsOf items a.item_id)
        (sortPairs attrs)).check_combo = false := by
      rw [attrLoop_check_combo]
      simp only [List.all_eq_false]
      obtain ⟨p, hp, h5⟩ := hbad
      exact ⟨p, hp, by simpa using not_le.mpr h5⟩
    rw [hk, if_pos rfl, hcc]
    simp

/-- **C1, witness** for the amended statement: the same observation as
the counterexample, folded for an item the Kuudra check accepts, records
combo key `"A B"` with value 60,000,000. -/
theorem c1_witness :
    lookupKey (foldedRecord (fun _ _ _ => true) 0 []
        ⟨"HELMET", 60000000, 0, some [("A", 2), ("B", 3)]⟩).attribute_combos "A B"
      = some 60000000 := by
  have h := (c1_combo_kuudra_gated (fun _ _ _ => true) 0 []
      ⟨"HELMET", 60000000, 0, some [("A", 2), ("B", 3)]⟩ [("A", 2), ("B", 3)] rfl
      (by decide)).1 (by decide) (by decide)
  exact h

/-! ### C5: the combo map survives a fold only through the Kuudra branch -/

/-- **C5.**  A fold replaces the identity's record with the newly built
one; the new record's combo map is non-empty only when the observation
carried attributes and the Kuudra check (the abstract model of
`update_kuudra_piece`, taken at the last processed modifier) reported
true — in every other case the built record's combo map is empty, so any
combo entries on the prior record are lost. -/
theorem c5_combo_presence (kuudra : String → String → ℚ → Bool) (now : ℚ)
    (items : Items) (a : Observation) :
    (lookupKey (foldAuction kuudra now items a) a.item_id
        = some (foldedRecord kuudra now items a))
    ∧ (a.attributes = none → (foldedRecord kuudra now items a).attribute_combos = [])
    ∧ (∀ attrs, a.attributes = some attrs →
        (attrLoop kuudra a.item_id now a.price (baseAttrsOf items a.item_id)
          (sortPairs attrs)).is_kuudra_piece = false →
        (foldedRecord kuudra now items a).attribute_combos = [])
    ∧ (∀ attrs, a.attributes = some attrs →
        (foldedRecord kuudra now items a).attribute_combos ≠ [] →
        (attrLoop kuudra a.item_id now a.price (baseAttrsOf items a.item_id)
          (sortPairs attrs)).is_kuudra_piece = true) := by
  refine ⟨by rw [foldAuction, lookupKey_setKey_self],
    fun ha => foldedRecord_combos_none kuudra now items a ha,
    fun attrs ha hkf => ?_, fun attrs ha hne => ?_⟩
  · rw [foldedRecord_combos_some kuudra now items a attrs ha, hkf]
    simp
  · by_cases hk : (attrLoop kuudra a.item_id now a.price (baseAttrsOf items a.item_id)
        (sortPairs attrs)).is_kuudra_piece = true
    · exact hk
    · exfalso
      apply hne
      rw [foldedRecord_combos_some kuudra now items a attrs ha,
        if_neg hk]

/-- **C5, witness**: a prior record for `X` holds a combo entry; folding
an observation for `X` that the Kuudra check rejects produces a record
with an empty combo map — the prior entry is gone. -/
theorem c5_witness :
    (foldedRecord (fun _ _ _ => false) 0
        [("X", ⟨100, some 1, [], [("A B", 42)]⟩)]
        ⟨"X", 50, 0, some [("A", 1)]⟩).attribute_combos = [] :=
  (c5_combo_presence (fun _ _ _ => false) 0
      [("X", ⟨100, some 1, [], [("A B", 42)]⟩)]
      ⟨"X", 50, 0, some [("A", 1)]⟩).2.2.1 [("A", 1)] rfl rfl

/-! ### C9: folding the same observation twice -/

/-- The stored price of every modifier entry (the view C9 compares). -/
def lbins (ia : List (String × ModEntry)) : List (String × ℚ) :=
  ia.map fun p => (p.1, p.2.lbin)

/-- The price effect of one attribute-loop step: the entry's price
becomes the minimum of the candidate and the previous price, seeding
with the candidate when the entry is absent. -/
def priceStep (item_bin : ℚ) (m : List (String × ℚ)) (p : String × Int) :
    List (String × ℚ) :=
  setKey m p.1
    (min (item_bin / 2 ^ (p.2 - 1)) ((lookupKey m p.1).getD (item_bin / 2 ^ (p.2 - 1))))

/-- The timestamp-free lbin/modifier-price/combo view of a record. -/
def recView (r : ItemRecord) : ℚ × List (String × ℚ) × List (String × ℚ) :=
  (r.lbin, lbins r.attributes, r.attribute_combos)

theorem lookupKey_lbins (ia : List (String × ModEntry)) (k : String) :
    lookupKey (lbins ia) k = (lookupKey ia k).map ModEntry.lbin := by
  induction ia with
  | nil => rfl
  | cons p rest ih =>
    by_cases hp : p.1 = k
    · simp [lbins, lookupKey, hp]
    · simpa [lbins, lookupKey, hp] using ih

theorem lbins_cons (p : String × ModEntry) (l : List (String × ModEntry)) :
    lbins (p :: l) = (p.1, p.2.lbin) :: lbins l := rfl

theorem setKey_cons {α : Type} (p : String × α) (rest : List (String × α))
    (k : String) (v : α) :
    setKey (p :: rest) k v = if p.1 = k then (k, v) :: rest else p :: setKey rest k v := rfl

theorem lbins_setKey (ia : List (String × ModEntry)) (k : String) (e : ModEntry) :
    lbins (setKey ia k e) = setKey (lbins ia) k e.lbin := by
  induction ia with
  | nil => rfl
  | cons p rest ih =>
    by_cases hp : p.1 = k
    · simp [lbins_cons, setKey_cons, hp]
    · simp [lbins_cons, setKey_cons, hp, ih]

theorem lbins_attrTierStep (now item_bin : ℚ) (ia : List (String × ModEntry))
    (k : String) (t : Int) :
    lbins (attrTierStep now item_bin ia k t) = priceStep item_bin (lbins ia) (k, t) := by
  cases hl : lookupKey ia k with
  | none =>
    have hl' : lookupKey (lbins ia) k = none := by rw [lookupKey_lbins, hl]; rfl
    simp [attrTierStep, priceStep, hl, hl', lbins_setKey, min_self]
  | some e =>
    have hl' : lookupKey (lbins ia) k = some e.lbin := by rw [lookupKey_lbins, hl]; rfl
    by_cases h1 : item_bin / 2 ^ (t - 1) ≤ e.lbin
    · simp [attrTierStep, priceStep, hl, hl', h1, lbins_setKey, min_eq_left h1]
    · have hmin : min (item_bin / 2 ^ (t - 1)) e.lbin = e.lbin :=
        min_eq_right (le_of_lt (not_le.mp h1))
      by_cases h2 : is_within_percentage e.lbin (item_bin / 2 ^ (t - 1)) 5 = true
      · simp [attrTierStep, priceStep, hl, hl', h1, h2, lbins_setKey, hmin]
      · simp [attrTierStep, priceStep, hl, hl', h1, h2, hmin,
          setKey_lookup_self _ _ _ hl']

theorem lbins_foldl_attrTierStep (now item_bin : ℚ) (pairs : List (String × Int))
    (ia : List (String × ModEntry)) :
    lbins (pairs.foldl (fun ia p => attrTierStep now item_bin ia p.1 p.2) ia)
      = pairs.foldl (priceStep item_bin) (lbins ia) := by
  induction pairs generalizing ia with
  | nil => rfl
  | cons p rest ih =>
    rw [List.foldl_cons, List.foldl_cons, ih, lbins_attrTierStep]

theorem lbins_attrLoop (kuudra : String → String → ℚ → Bool) (item_id : String)
    (now item_bin : ℚ) (ia0 : List (String × ModEntry)) (pairs : List (String × Int)) :
    lbins (attrLoop kuudra item_id now item_bin ia0 pairs).item_attributes
      = pairs.foldl (priceStep item_bin) (lbins ia0) := by
  rw [attrLoop, foldl_attrStep_item_attributes, lbins_foldl_attrTierStep]

theorem lookupKey_priceStep_self (item_bin : ℚ) (m : List (String × ℚ))
    (p : String × Int) :
    lookupKey (priceStep item_bin m p) p.1
      = some (min (item_bin / 2 ^ (p.2 - 1))
          ((lookupKey m p.1).getD (item_bin / 2 ^ (p.2 - 1)))) := by
  rw [priceStep, lookupKey_setKey_self]

theorem priceStep_noop (item_bin : ℚ) (m : List (String × ℚ)) (p : String × Int)
    (v : ℚ) (hv : lookupKey m p.1 = some v) (hle : v ≤ item_bin / 2 ^ (p.2 - 1)) :
    priceStep item_bin m p = m := by
  rw [priceStep, hv]
  simp only [Option.getD_some]
  rw [min_eq_right hle]
  exact setKey_lookup_self _ _ _ hv

theorem foldl_priceStep_le (item_bin : ℚ) (ps : List (String × Int))
    (m : List (String × ℚ)) (k : String) (v : ℚ) (hv : lookupKey m k = some v) :
    ∃ w, lookupKey (ps.foldl (priceStep item_bin) m) k = some w ∧ w ≤ v := by
  induction ps generalizing m v with
  | nil => exact ⟨v, hv, le_rfl⟩
  | cons p rest ih =>
    rw [List.foldl_cons]
    by_cases hp : p.1 = k
    · subst hp
      have hstep : lookupKey (priceStep item_bin m p) p.1
          = some (min (item_bin / 2 ^ (p.2 - 1)) v) := by
        rw [lookupKey_priceStep_self, hv, Option.getD_some]
      obtain ⟨w, hw, hwle⟩ := ih _ _ hstep
      exact ⟨w, hw, hwle.trans (min_le_right _ _)⟩
    · have hstep : lookupKey (priceStep item_bin m p) k = some v := by
        rw [priceStep, lookupKey_setKey_ne _ _ _ _ (Ne.symm hp)]
        exact hv
      exact ih _ _ hstep

theorem foldl_priceStep_idem (item_bin : ℚ) (ps : List (String × Int))
    (m : List (String × ℚ)) :
    ps.foldl (priceStep item_bin) (ps.foldl (priceStep item_bin) m)
      = ps.foldl (priceStep item_bin) m := by
  induction ps generalizing m with
  | nil => rfl
  | cons p rest ih =>
    simp only [List.foldl_cons]
    obtain ⟨w, hw, hwle⟩ := foldl_priceStep_le item_bin rest (priceStep item_bin m p)
      p.1 _ (lookupKey_priceStep_self item_bin m p)
    have hno : priceStep item_bin
        (rest.foldl (priceStep item_bin) (priceStep item_bin m p)) p
        = rest.foldl (priceStep item_bin) (priceStep item_bin m p) :=
      priceStep_noop item_bin _ p w hw (hwle.trans (min_le_left _ _))
    rw [hno, ih]

theorem foldedRecord_idem_view (kuudra : String → String → ℚ → Bool)
    (now1 now2 : ℚ) (items : Items) (a : Observation) :
    recView (foldedRecord kuudra now2
        (setKey items a.item_id (foldedRecord kuudra now1 items a)) a)
      = recView (foldedRecord kuudra now1 items a) := by
  have hcur : lookupKey (setKey items a.item_id (foldedRecord kuudra now1 items a))
      a.item_id = some (foldedRecord kuudra now1 items a) :=
    lookupKey_setKey_self _ _ _
  have hlbin : (foldedRecord kuudra now2
      (setKey items a.item_id (foldedRecord kuudra now1 items a)) a).lbin
      = (foldedRecord kuudra now1 items a).lbin := by
    simp only [foldedRecord_lbin, hcur]
    cases hc : lookupKey items a.item_id with
    | none => simp
    | some c => rw [← min_assoc, min_self]
  have hbas : baseAttrsOf (setKey items a.item_id (foldedRecord kuudra now1 items a))
      a.item_id = (foldedRecord kuudra now1 items a).attributes :=
    baseAttrsOf_setKey_self _ _ _
  have hbcs : baseCombosOf (setKey items a.item_id (foldedRecord kuudra now1 items a))
      a.item_id = (foldedRecord kuudra now1 items a).attribute_combos :=
    baseCombosOf_setKey_self _ _ _
  cases ha : a.attributes with
  | none =>
    have hattrs : (foldedRecord kuudra now2
        (setKey items a.item_id (foldedRecord kuudra now1 items a)) a).attributes
        = (foldedRecord kuudra now1 items a).attributes := by
      rw [foldedRecord_attributes_none _ _ _ _ ha, hbas]
    have hcombos : (foldedRecord kuudra now2
        (setKey items a.item_id (foldedRecord kuudra now1 items a)) a).attribute_combos
        = (foldedRecord kuudra now1 items a).attribute_combos := by
      rw [foldedRecord_combos_none _ _ _ _ ha, foldedRecord_combos_none _ _ _ _ ha]
    simp only [recView, Prod.mk.injEq]
    exact ⟨hlbin, by rw [hattrs], hcombos⟩
  | some attrs =>
    have hkud : (attrLoop kuudra a.item_id now2 a.price
        (baseAttrsOf (setKey items a.item_id (foldedRecord kuudra now1 items a))
          a.item_id) (sortPairs attrs)).is_kuudra_piece
        = (attrLoop kuudra a.item_id now1 a.price (baseAttrsOf items a.item_id)
            (sortPairs attrs)).is_kuudra_piece :=
      attrLoop_kuudra_congr kuudra a.item_id now2 now1 a.price _ _ _
    have hcc : (attrLoop kuudra a.item_id now2 a.price
        (baseAttrsOf (setKey items a.item_id (foldedRecord kuudra now1 items a))
          a.item_id) (sortPairs attrs)).check_combo
        = (attrLoop kuudra a.item_id now1 a.price (baseAttrsOf items a.item_id)
            (sortPairs attrs)).check_combo := by
      rw [attrLoop_check_combo, attrLoop_check_combo]
    have hattrs : lbins (foldedRecord kuudra now2
        (setKey items a.item_id (foldedRecord kuudra now1 items a)) a).attributes
        = lbins (foldedRecord kuudra now1 items a).attributes := by
      rw [foldedRecord_attributes_some _ _ _ _ attrs ha, hbas,
        foldedRecord_attributes_some _ _ _ _ attrs ha, lbins_attrLoop, lbins_attrLoop,
        foldl_priceStep_idem, ← lbins_attrLoop kuudra a.item_id now1,
        ← foldedRecord_attributes_some kuudra now1 items a attrs ha]
    have hcombos : (foldedRecord kuudra now2
        (setKey items a.item_id (foldedRecord kuudra now1 items a)) a).attribute_combos
        = (foldedRecord kuudra now1 items a).attribute_combos := by
      rw [foldedRecord_combos_some _ _ _ _ attrs ha, hbcs, hkud, hcc]
      cases hk1 : (attrLoop kuudra a.item_id now1 a.price (baseAttrsOf items a.item_id)
          (sortPairs attrs)).is_kuudra_piece with
      | false =>
        simp only [hk1, Bool.false_eq_true, if_false]
        rw [foldedRecord_combos_some _ _ _ _ attrs ha, hk1]
        rfl
      | true =>
        simp only [hk1, if_true]
        cases hcb : (attrLoop kuudra a.item_id now1 a.price (baseAttrsOf items a.item_id)
            (sortPairs attrs)).check_combo && decide (1 < (sortPairs attrs).length) with
        | false => simp only [hcb, Bool.false_eq_true, if_false]
        | true =>
          simp only [hcb, if_true]
          have hc1 : (foldedRecord kuudra now1 items a).attribute_combos
              = setKey (baseCombosOf items a.item_id)
                  (joinSpace ((sortPairs attrs).map Prod.fst))
                  (min a.price ((lookupKey (baseCombosOf items a.item_id)
                    (joinSpace ((sortPairs attrs).map Prod.fst))).getD a.price)) := by
            rw [foldedRecord_combos_some _ _ _ _ attrs ha, hk1, hcb]
            rfl
          have hv1 : lookupKey (foldedRecord kuudra now1 items a).attribute_combos
              (joinSpace ((sortPairs attrs).map Prod.fst))
              = some (min a.price ((lookupKey (baseCombosOf items a.item_id)
                  (joinSpace ((sortPairs attrs).map Prod.fst))).getD a.price)) := by
            rw [hc1, lookupKey_setKey_self]
          rw [hv1]
          simp only [Option.getD_some]
          rw [min_eq_right (min_le_left _ _), setKey_lookup_self _ _ _ hv1]
    simp only [recView, Prod.mk.injEq]
    exact ⟨hlbin, hattrs, hcombos⟩

/-- **C9.**  Folding the same observation twice in a row (at arbitrary
times) leaves the identity's record with the same `lbin`, the same
per-modifier prices, and the same combo map as folding it once — the
second fold can change nothing but timestamps. -/
theorem c9_fold_idempotent (kuudra : String → String → ℚ → Bool) (now1 now2 : ℚ)
    (items : Items) (a : Observation) :
    (lookupKey (foldAuction kuudra now2 (foldAuction kuudra now1 items a) a)
        a.item_id).map recView
      = (lookupKey (foldAuction kuudra now1 items a) a.item_id).map recView := by
  simp only [foldAuction, lookupKey_setKey_self, Option.map_some']
  exact congrArg some (foldedRecord_idem_view kuudra now1 now2 items a)

end SoldAuction
